import Mathlib

/-!
Verification of the secure-review backend's review lifecycle, code-source
resolver, analysis backend and repository queries, as a shallow embedding of
the Go source (`internal/service/review_service.go`,
`internal/service/openai_analyzer.go`, `internal/service/github_auth_service.go`
and the GORM review repository).

Modelling conventions:
* UUIDs and timestamps are `Nat`; Go pointer/option fields are `Option`.
* The review store always persists a requested write (store failures are not
  injected); each call to `reviewRepo.Update` is recorded as one persisted
  snapshot, so a run's "writes" list is the sequence of states visible to
  readers, in commit order.
* The detached background task (`go s.analyzeCode(...)`) is modelled as
  running to completion at its scheduling point, matching the spec's
  deterministic, synchronous test model; concurrent interleavings of two
  background tasks are out of scope.
* External collaborators (GitHub fetch, LLM analyzer) are an explicit
  environment of outcome functions.
-/

set_option linter.unusedVariables false

namespace SecureReview

/-- `domain.ReviewStatus`: closed 4-value status enum. -/
inductive ReviewStatus : Type
  | pending
  | processing
  | completed
  | failed
deriving DecidableEq, Repr, Inhabited

/-- `domain.SecuritySeverity`: severity enum. -/
inductive SecuritySeverity : Type
  | critical
  | high
  | medium
  | low
  | info
deriving DecidableEq, Repr, Inhabited

/-- The string each `SecuritySeverity` constant is defined as in the source
(`SeverityCritical SecuritySeverity = "critical"` etc.); this is the value
stored in the `severity` VARCHAR column. -/
def severityString : SecuritySeverity → String
  | .critical => "critical"
  | .high => "high"
  | .medium => "medium"
  | .low => "low"
  | .info => "info"

/-- `domain.CodeReview` (fields relevant to the claims). -/
structure CodeReview where
  id : Nat
  userID : Nat
  title : String
  code : String
  language : String
  status : ReviewStatus
  result : Option String
  customPrompt : Option String
  createdAt : Nat
  updatedAt : Nat
  completedAt : Option Nat
deriving DecidableEq, Repr, Inhabited

/-- `domain.SecurityIssue`. -/
structure SecurityIssue where
  id : Nat
  reviewID : Nat
  severity : SecuritySeverity
  title : String
  description : String
  lineStart : Option Int
  lineEnd : Option Int
  suggestion : String
  cwe : Option String
  createdAt : Nat
deriving DecidableEq, Repr, Inhabited

/-- `domain.SecurityIssueInput` (one issue in an analysis result). -/
structure SecurityIssueInput where
  severity : SecuritySeverity
  title : String
  description : String
  lineStart : Option Int
  lineEnd : Option Int
  suggestion : String
  cwe : Option String
deriving DecidableEq, Repr, Inhabited

/-- `domain.AnalysisRequest`. -/
structure AnalysisRequest where
  code : String
  language : String
  customPrompt : Option String
deriving DecidableEq, Repr, Inhabited

/-- `domain.AnalysisResult`. -/
structure AnalysisResult where
  summary : String
  securityIssues : List SecurityIssueInput
  suggestions : List String
  overallScore : Int
deriving DecidableEq, Repr, Inhabited

/-- `domain.CreateReviewInput` (src/unnamed/part_011 lines 61-70). -/
structure CreateReviewInput where
  title : String
  code : Option String
  language : String
  repoOwner : Option String
  repoName : Option String
  repoBranch : Option String
  customPrompt : Option String
deriving DecidableEq, Repr, Inhabited

/-- A GitHub repository reference `(owner, name, branch)`. -/
structure RepoRef where
  owner : String
  name : String
  branch : String
deriving DecidableEq, Repr, Inhabited

/-- The transient placeholder written into `Code` while repository content is
being downloaded (review_service.go line 49). -/
def repoPlaceholder : String := "Repository content is being downloaded..."

/-- `ReviewServiceImpl.Create` (review_service.go lines 37-88) up to and
including persisting the new `pending` review.  Returns the persisted review
together with the repository triple handed to the scheduled background
`analyzeCode` call (`none` for inline code). -/
def Create (newID now userID : Nat) (input : CreateReviewInput) :
    Except String (CodeReview × Option RepoRef) :=
  match input.repoName, input.repoOwner, input.repoBranch with
  | some rn, some ro, some rb =>
      let code := repoPlaceholder
      let language := if input.language ≠ "" then input.language else "Mixed (Repository)"
      if code = "" then .error "code content is empty"
      else
        .ok ({ id := newID, userID := userID, title := input.title, code := code,
               language := language, status := .pending, result := none,
               customPrompt := input.customPrompt, createdAt := now, updatedAt := now,
               completedAt := none }, some ⟨ro, rn, rb⟩)
  | _, _, _ =>
      match input.code with
      | some c =>
          if c = "" then .error "code content is empty"
          else
            .ok ({ id := newID, userID := userID, title := input.title, code := c,
                   language := input.language, status := .pending, result := none,
                   customPrompt := input.customPrompt, createdAt := now, updatedAt := now,
                   completedAt := none }, none)
      | none => .error "either code or repository details must be provided"

/-- `true` exactly when the input carries a complete repository triple, the
condition on line 43 of review_service.go. -/
def fullRepoTriple (input : CreateReviewInput) : Bool :=
  input.repoName.isSome && input.repoOwner.isSome && input.repoBranch.isSome

/-- A creation input that carries both inline code and a complete repository
triple. -/
def bothOriginsInput : CreateReviewInput :=
  { title := "t", code := some "a=1", language := "python",
    repoOwner := some "o", repoName := some "n", repoBranch := some "b",
    customPrompt := none }

/-- C4, counterexample: `Create` succeeds on an input that carries *two*
code-origins (inline code and a complete repository triple), so it does not
validate that exactly one origin is supplied. -/
theorem Create_succeeds_with_two_origins :
    (Create 1 0 7 bothOriginsInput).isOk = true ∧
    bothOriginsInput.code.isSome = true ∧
    bothOriginsInput.repoOwner.isSome = true ∧
    bothOriginsInput.repoName.isSome = true ∧
    bothOriginsInput.repoBranch.isSome = true := by
  decide

/-- C4 (amended): `Create` succeeds exactly when a complete repository triple
is present or, failing that, when non-empty inline code is present; it fails
with an invalid-input error otherwise, and every successfully persisted review
is `pending` with `Result` and `CompletedAt` unset. -/
theorem Create_validation (newID now userID : Nat) (input : CreateReviewInput) :
    ((Create newID now userID input).isOk = true ↔
      (fullRepoTriple input = true ∨ input.code.getD "" ≠ "")) ∧
    (∀ r repo, Create newID now userID input = .ok (r, repo) →
      r.status = .pending ∧ r.result = none ∧ r.completedAt = none ∧
      r.userID = userID ∧ r.title = input.title) := by
  rcases input with ⟨title, code, language, ro, rn, rb, cp⟩
  refine ⟨?_, ?_⟩
  · cases rn <;> cases ro <;> cases rb <;> cases code <;>
      simp only [Create] <;>
      (try split) <;>
      simp_all [fullRepoTriple, Except.isOk, Except.toBool, repoPlaceholder]
  · intro r repo h
    cases rn <;> cases ro <;> cases rb <;> cases code <;>
      simp only [Create] at h <;>
      (try split at h) <;>
      (try cases h) <;> simp_all

/-- C4 witness: instantiation of `Create_validation` at a concrete inline
input. -/
theorem Create_validation_witness :
    (Create 1 0 7 { title := "t", code := some "a=1", language := "python",
                    repoOwner := none, repoName := none,
                    repoBranch := none, customPrompt := none }).isOk = true :=
  (Create_validation 1 0 7 _).1.mpr (Or.inr (by decide))

/-- C10: when all three repository fields are present the repository origin is
taken (inline code, if any, is discarded and the stored code is the download
placeholder), and when the triple is incomplete but non-empty inline code is
present the inline origin is taken. -/
theorem Create_repo_precedence (newID now userID : Nat) (input : CreateReviewInput) :
    (∀ ro rn rb, input.repoOwner = some ro → input.repoName = some rn →
      input.repoBranch = some rb →
      ∃ r, Create newID now userID input = .ok (r, some ⟨ro, rn, rb⟩) ∧
        r.code = repoPlaceholder ∧ r.status = .pending) ∧
    ((input.repoOwner = none ∨ input.repoName = none ∨ input.repoBranch = none) →
      ∀ c, input.code = some c → c ≠ "" →
        ∃ r, Create newID now userID input = .ok (r, none) ∧
          r.code = c ∧ r.status = .pending) := by
  rcases input with ⟨title, code, language, ro, rn, rb, cp⟩
  cases rn <;> cases ro <;> cases rb <;> cases code <;>
    simp_all [Create, repoPlaceholder]

/-- C10 witness: instantiation of `Create_repo_precedence` at the two-origin
input; the repository origin wins and the placeholder is stored. -/
theorem Create_repo_precedence_witness :
    ∃ r, Create 1 0 7 bothOriginsInput = .ok (r, some ⟨"o", "n", "b"⟩) ∧
      r.code = repoPlaceholder ∧ r.status = .pending :=
  (Create_repo_precedence 1 0 7 bothOriginsInput).1 "o" "n" "b" rfl rfl rfl

/-- Shared helper: every review persisted by a successful `Create` is pending
with `Result` and `CompletedAt` unset. -/
theorem Create_ok_fields (newID now userID : Nat) (input : CreateReviewInput)
    (r : CodeReview) (repo : Option RepoRef)
    (h : Create newID now userID input = .ok (r, repo)) :
    r.status = .pending ∧ r.result = none ∧ r.completedAt = none := by
  rcases input with ⟨title, code, language, ro, rn, rb, cp⟩
  cases rn <;> cases ro <;> cases rb <;> cases code <;>
    simp only [Create] at h <;>
    (try split at h) <;>
    (try cases h) <;> simp_all

/-- The environment of external collaborators seen by one background run:
`githubAuthService.GetRepositoryContent` and `codeAnalyzer.AnalyzeCode`
outcomes. -/
structure Env where
  fetch : RepoRef → Except String String
  analyze : AnalysisRequest → Except String AnalysisResult

/-- An analyzer that only fails with non-empty error messages (every concrete
error built by the Go analyzer has non-empty text). -/
def Env.goodErrors (env : Env) : Prop :=
  ∀ req e, env.analyze req = .error e → e ≠ ""

/-- The observable outcome of one background `analyzeCode` run: the review
snapshots persisted by each `reviewRepo.Update` call in commit order, the
security issues created, the analyzer requests issued, and how many times the
repository fetch was invoked. -/
structure AnalyzeOutcome where
  writes : List CodeReview
  issues : List SecurityIssue
  requests : List AnalysisRequest
  fetchCalls : Nat

/-- The `Result` digest composed on the success path of `analyzeCode`
(review_service.go lines 252-268). -/
def formatResult (result : AnalysisResult) : String :=
  let base := "# Analysis Result\n\n" ++
    "**Overall Safe Score:** " ++ toString result.overallScore ++ "/100\n\n" ++
    "## Summary\n" ++ result.summary ++ "\n\n"
  if result.suggestions.length > 0 then
    base ++ "## Code Quality Suggestions\n" ++
      String.join (result.suggestions.map (fun s => "- " ++ s ++ "\n"))
  else base

/-- One `domain.SecurityIssue` row built from an analyzer issue
(review_service.go lines 234-247); the fresh UUID is modelled as 0. -/
def issueFromInput (now reviewID : Nat) (i : SecurityIssueInput) : SecurityIssue :=
  { id := 0, reviewID := reviewID, severity := i.severity, title := i.title,
    description := i.description, lineStart := i.lineStart, lineEnd := i.lineEnd,
    suggestion := i.suggestion, cwe := i.cwe, createdAt := now }

/-- The tail of `analyzeCode` from the analyzer call onwards
(review_service.go lines 218-275), given the in-memory review at that point.
Returns the persisted writes, created issues and the analyzer request. -/
def analyzeTail (now : Nat) (r : CodeReview) (env : Env) :
    List CodeReview × List SecurityIssue × AnalysisRequest :=
  let req : AnalysisRequest :=
    { code := r.code, language := r.language, customPrompt := r.customPrompt }
  match env.analyze req with
  | .error e =>
      ([{ r with status := .failed, result := some e, updatedAt := now }], [], req)
  | .ok result =>
      ([{ r with
          status := .completed, result := some (formatResult result),
          completedAt := some now, updatedAt := now }],
       result.securityIssues.map (issueFromInput now r.id), req)

/-- `ReviewServiceImpl.analyzeCode` (review_service.go lines 191-275), the
background continuation shared by `Create` and `ReanalyzeReview`. -/
def analyzeCode (now : Nat) (review : CodeReview) (repo : Option RepoRef) (env : Env) :
    AnalyzeOutcome :=
  let r1 := { review with status := .processing, updatedAt := now }
  match repo with
  | some ref =>
      match env.fetch ref with
      | .error e =>
          { writes := [r1, { r1 with
              status := .failed,
              result := some ("Failed to fetch repository: " ++ e), updatedAt := now }],
            issues := [], requests := [], fetchCalls := 1 }
      | .ok content =>
          let r2 := { r1 with code := content }
          let t := analyzeTail now r2 env
          { writes := r1 :: r2 :: t.1, issues := t.2.1, requests := [t.2.2], fetchCalls := 1 }
  | none =>
      let t := analyzeTail now r1 env
      { writes := r1 :: t.1, issues := t.2.1, requests := [t.2.2], fetchCalls := 0 }

/-- Errors surfaced synchronously by ownership-checked operations. -/
inductive ServiceError : Type
  | reviewNotFound
  | reviewAccessDenied
deriving DecidableEq, Repr, Inhabited

/-- `ReviewServiceImpl.ReanalyzeReview` (review_service.go lines 160-189) up
to scheduling the background run: the ownership check, the deletion of the
existing issues, and the reset write.  Returns the persisted reset review, the
(now empty) issue set, and the repo triple handed to the scheduled
`analyzeCode` call — the source always passes `nil, nil, nil` (line 186). -/
def ReanalyzeReview (now userID : Nat) (review : CodeReview) (issues : List SecurityIssue) :
    Except ServiceError (CodeReview × List SecurityIssue × Option RepoRef) :=
  if review.userID ≠ userID then .error .reviewAccessDenied
  else
    .ok ({ review with
           status := .pending, result := none, completedAt := none,
           updatedAt := now }, [], none)

/-- Which operation committed a persisted write. -/
inductive StepLabel : Type
  | createStep
  | taskStep
  | reanalyzeStep
deriving DecidableEq, Repr, Inhabited

/-- One reanalyze request: its timestamp, the caller, and the environment its
background run sees. -/
structure ReanalyzeEvent where
  now : Nat
  userID : Nat
  env : Env

/-- Persisted writes of one reanalyze request followed by its (synchronously
modelled) background run; empty when the ownership check rejects the call. -/
def reanalyzeWrites (e : ReanalyzeEvent) (cur : CodeReview) : List (StepLabel × CodeReview) :=
  match ReanalyzeReview e.now e.userID cur [] with
  | .error _ => []
  | .ok (reset, _, repo) =>
      (.reanalyzeStep, reset) ::
        ((analyzeCode e.now reset repo e.env).writes.map (fun w => (.taskStep, w)))

/-- Last element of a list, or the given default for the empty list. -/
def lastD {α : Type} (a : α) : List α → α
  | [] => a
  | b :: t => lastD b t

/-- All persisted writes committed by a list of reanalyze requests, starting
from the last persisted state `prev`. -/
def lifecycleFrom (prev : StepLabel × CodeReview) :
    List ReanalyzeEvent → List (StepLabel × CodeReview)
  | [] => []
  | e :: es =>
      let ws := reanalyzeWrites e prev.2
      ws ++ lifecycleFrom (lastD prev ws) es

/-- The full labelled sequence of persisted review states produced by one
`Create` call, its background run, and any sequence of `ReanalyzeReview`
requests each followed by its own background run. -/
def lifecycleTrace (newID now userID : Nat) (input : CreateReviewInput) (env : Env)
    (events : List ReanalyzeEvent) : Except String (List (StepLabel × CodeReview)) :=
  match Create newID now userID input with
  | .error e => .error e
  | .ok (r, repo) =>
      let head := (StepLabel.createStep, r) ::
        ((analyzeCode now r repo env).writes.map (fun w => (StepLabel.taskStep, w)))
      .ok (head ++ lifecycleFrom (lastD (.createStep, r) head) events)

/-- The status edges of §4.1's state diagram. -/
def allowedEdge : ReviewStatus → ReviewStatus → Bool
  | .pending, .processing => true
  | .processing, .failed => true
  | .processing, .completed => true
  | .completed, .pending => true
  | .failed, .pending => true
  | _, _ => false

/-- Soundness of one adjacent pair of persisted writes: a status change moves
along an edge of the diagram, and any entry into `pending` is committed by an
explicit reanalyze request. -/
def stepOK (x y : StepLabel × CodeReview) : Prop :=
  (x.2.status ≠ y.2.status → allowedEdge x.2.status y.2.status = true) ∧
  (y.2.status = .pending → x.2.status ≠ .pending → y.1 = .reanalyzeStep)

/-- Appending chains: a chain through `l₁ ++ l₂` splits at `l₁`'s last
element. -/
theorem chain_append_lastD {α : Type} {R : α → α → Prop} (l₁ l₂ : List α) (a : α)
    (h₁ : List.Chain R a l₁) (h₂ : List.Chain R (lastD a l₁) l₂) :
    List.Chain R a (l₁ ++ l₂) := by
  induction l₁ generalizing a with
  | nil => simpa using h₂
  | cons b t ih =>
      rcases h₁ with _ | ⟨hab, ht⟩
      exact List.Chain.cons hab (ih b ht h₂)

/-- `lastD` commutes with `map` when the default is the image of the original
default. -/
theorem lastD_map {α β : Type} (f : α → β) (l : List α) (a : α) :
    lastD (f a) (l.map f) = f (lastD a l) := by
  induction l generalizing a with
  | nil => rfl
  | cons b t ih => simpa [lastD] using ih b

/-- `lastD` over an append. -/
theorem lastD_append {α : Type} (l₁ l₂ : List α) (a : α) :
    lastD a (l₁ ++ l₂) = lastD (lastD a l₁) l₂ := by
  induction l₁ generalizing a with
  | nil => rfl
  | cons b t ih => simpa [lastD] using ih b

/-- The chain property holds from any pending predecessor through the writes
of one background run. -/
theorem chain_task (now : Nat) (r : CodeReview) (repo : Option RepoRef) (env : Env)
    (x : StepLabel × CodeReview) (hx : x.2.status = .pending) :
    List.Chain stepOK x
      ((analyzeCode now r repo env).writes.map (fun w => (StepLabel.taskStep, w))) := by
  cases repo <;>
    simp only [analyzeCode, analyzeTail] <;>
    split <;>
    (try split) <;>
    simp [List.chain_cons, stepOK, allowedEdge, hx]

/-- The writes of one background run are non-empty and end in a terminal
status. -/
theorem analyzeCode_last (now : Nat) (r : CodeReview) (repo : Option RepoRef) (env : Env) :
    (analyzeCode now r repo env).writes ≠ [] ∧
    ((lastD r (analyzeCode now r repo env).writes).status = .completed ∨
     (lastD r (analyzeCode now r repo env).writes).status = .failed) := by
  cases repo <;>
    simp only [analyzeCode, analyzeTail] <;>
    split <;>
    (try split) <;>
    simp [lastD]

/-- `lastD` is independent of the default on non-empty lists; over pairs the
second projection only needs matching defaults up to `Prod.snd`. -/
theorem lastD_snd_default {α β : Type} (l : List (α × β)) (d₁ d₂ : α × β)
    (h : d₁.2 = d₂.2) : (lastD d₁ l).2 = (lastD d₂ l).2 := by
  induction l generalizing d₁ d₂ with
  | nil => exact h
  | cons b t ih => simp [lastD]

/-- Chain and terminality of the writes committed by any sequence of
reanalyze requests, starting from a terminal persisted state. -/
theorem lifecycleFrom_chain (events : List ReanalyzeEvent) :
    ∀ (x : StepLabel × CodeReview),
      (x.2.status = .completed ∨ x.2.status = .failed) →
      List.Chain stepOK x (lifecycleFrom x events) ∧
      ((lastD x (lifecycleFrom x events)).2.status = .completed ∨
       (lastD x (lifecycleFrom x events)).2.status = .failed) := by
  induction events with
  | nil =>
      intro x hx
      exact ⟨List.Chain.nil, hx⟩
  | cons e es ih =>
      intro x hx
      simp only [lifecycleFrom]
      by_cases ho : x.2.userID ≠ e.userID
      · have hws : reanalyzeWrites e x.2 = [] := by
          simp [reanalyzeWrites, ReanalyzeReview, ho]
        rw [hws]
        simpa [lastD] using ih x hx
      · push_neg at ho
        have hws : reanalyzeWrites e x.2 =
            (StepLabel.reanalyzeStep,
              { x.2 with
                status := .pending, result := none, completedAt := none,
                updatedAt := e.now }) ::
            ((analyzeCode e.now
                { x.2 with
                  status := .pending, result := none, completedAt := none,
                  updatedAt := e.now } none e.env).writes.map
              (fun w => (StepLabel.taskStep, w))) := by
          simp [reanalyzeWrites, ReanalyzeReview, ho]
        set reset : CodeReview :=
          { x.2 with
            status := .pending, result := none, completedAt := none,
            updatedAt := e.now } with hreset
        set taskpairs : List (StepLabel × CodeReview) :=
          (analyzeCode e.now reset none e.env).writes.map
            (fun w => (StepLabel.taskStep, w)) with htp
        have hlastw := analyzeCode_last e.now reset none e.env
        have hlastpair :
            (lastD (StepLabel.reanalyzeStep, reset) taskpairs).2.status = .completed ∨
            (lastD (StepLabel.reanalyzeStep, reset) taskpairs).2.status = .failed := by
          have hm := lastD_map (fun w => (StepLabel.taskStep, w))
            (analyzeCode e.now reset none e.env).writes reset
          have hswap : (lastD (StepLabel.reanalyzeStep, reset) taskpairs).2 =
              (lastD (StepLabel.taskStep, reset) taskpairs).2 :=
            lastD_snd_default _ _ _ rfl
          rw [hswap, htp, hm]
          exact hlastw.2
        have hlast_eq : lastD x (reanalyzeWrites e x.2) =
            lastD (StepLabel.reanalyzeStep, reset) taskpairs := by
          rw [hws]
          rfl
        have hnext := ih (lastD x (reanalyzeWrites e x.2)) (by
          rw [hlast_eq]
          exact hlastpair)
        constructor
        · refine chain_append_lastD _ _ _ ?_ hnext.1
          rw [hws]
          refine List.Chain.cons ?_ (chain_task e.now reset none e.env _ rfl)
          constructor
          · intro _
            rcases hx with hx | hx <;> simp [allowedEdge, hx, hreset]
          · intro _ _
            rfl
        · rw [lastD_append]
          exact hnext.2

/-- C1: along every lifecycle trace — one `Create`, its background
`analyzeCode` run, and any sequence of `ReanalyzeReview` requests each
followed by its own background run — the persisted `Status` only changes
along the edges `pending → processing`, `processing → failed`,
`processing → completed`, `completed → pending` and `failed → pending`, and
every write that enters `pending` from a different status (in particular from
`processing`) is committed by an explicit reanalyze step. -/
theorem lifecycle_status_machine (newID now userID : Nat) (input : CreateReviewInput)
    (env : Env) (events : List ReanalyzeEvent) (tr : List (StepLabel × CodeReview))
    (h : lifecycleTrace newID now userID input env events = .ok tr) :
    List.Chain' stepOK tr := by
  unfold lifecycleTrace at h
  rcases hc : Create newID now userID input with e | rp
  · rw [hc] at h
    cases h
  · rcases rp with ⟨r, repo⟩
    rw [hc] at h
    injection h with h
    subst h
    have hr := Create_ok_fields newID now userID input r repo hc
    set tp : List (StepLabel × CodeReview) :=
      (analyzeCode now r repo env).writes.map (fun w => (StepLabel.taskStep, w)) with htp
    have hterm : (lastD (StepLabel.createStep, r) tp).2.status = .completed ∨
        (lastD (StepLabel.createStep, r) tp).2.status = .failed := by
      have hm := lastD_map (fun w => (StepLabel.taskStep, w))
        (analyzeCode now r repo env).writes r
      have hswap : (lastD (StepLabel.createStep, r) tp).2 =
          (lastD (StepLabel.taskStep, r) tp).2 :=
        lastD_snd_default _ _ _ rfl
      rw [hswap, htp, hm]
      exact (analyzeCode_last now r repo env).2
    have hch := lifecycleFrom_chain events (lastD (StepLabel.createStep, r) tp) hterm
    show List.Chain stepOK (StepLabel.createStep, r) _
    exact chain_append_lastD _ _ _ (chain_task now r repo env _ hr.1) hch.1

/-- A concrete inline-code creation input used by witnesses. -/
def inlineInput : CreateReviewInput :=
  { title := "t", code := some "a=1", language := "python",
    repoOwner := none, repoName := none, repoBranch := none, customPrompt := none }

/-- A concrete environment whose analyzer succeeds. -/
def okEnv : Env :=
  { fetch := fun _ => Except.error "unreachable",
    analyze := fun _ => Except.ok
      { summary := "fine", securityIssues := [], suggestions := ["s1"], overallScore := 90 } }

/-- C1 witness: the chain property evaluated on a concrete trace with one
reanalyze request. -/
theorem lifecycle_status_machine_witness :
    List.Chain' stepOK
      ((lifecycleTrace 1 0 7 inlineInput okEnv
        [{ now := 2, userID := 7, env := okEnv }]).toOption.getD []) :=
  lifecycle_status_machine 1 0 7 inlineInput okEnv
    [{ now := 2, userID := 7, env := okEnv }] _ rfl

/-- A non-empty string stays non-empty after appending on the right. -/
theorem append_ne_empty_left (s t : String) (h : s ≠ "") : s ++ t ≠ "" := by
  intro he
  apply h
  have hd : s.data ++ t.data = "".data := by
    rw [← String.data_append]
    exact congrArg String.data he
  simp only [String.data] at hd
  rw [List.append_eq_nil] at hd
  rcases s with ⟨sd⟩
  simp_all

/-- The success digest is never the empty string. -/
theorem formatResult_ne_empty (res : AnalysisResult) : formatResult res ≠ "" := by
  unfold formatResult
  split <;>
  · repeat' apply append_ne_empty_left
    decide

/-- Invariant on a persisted snapshot: `CompletedAt` is set iff the review is
`completed`, and `Result` holds a non-empty string iff the review is
`completed` or `failed`. -/
def resultInv (r : CodeReview) : Prop :=
  (r.completedAt ≠ none ↔ r.status = .completed) ∧
  ((∃ s, r.result = some s ∧ s ≠ "") ↔ (r.status = .completed ∨ r.status = .failed))

/-- Every write of one background run satisfies `resultInv`, provided the
input review has `Result` and `CompletedAt` cleared and analyzer errors are
non-empty. -/
theorem analyzeCode_writes_inv (now : Nat) (r : CodeReview) (repo : Option RepoRef)
    (env : Env) (henv : Env.goodErrors env)
    (hres : r.result = none) (hcomp : r.completedAt = none) :
    ∀ w ∈ (analyzeCode now r repo env).writes, resultInv w := by
  cases repo <;>
    simp only [analyzeCode, analyzeTail] <;>
    split <;>
    (try split) <;>
    intro w hw <;>
    simp only [List.mem_cons, List.mem_singleton, List.not_mem_nil, or_false] at hw
  case none.h_1 e heq =>
    rcases hw with hw | hw <;> subst hw <;>
      simp [resultInv, hres, hcomp]
    exact henv _ e heq
  case none.h_2 res heq =>
    rcases hw with hw | hw <;> subst hw <;>
      simp [resultInv, hres, hcomp]
    exact formatResult_ne_empty res
  case some.h_1 ref e heq =>
    rcases hw with hw | hw <;> subst hw <;>
      simp [resultInv, hres, hcomp]
    exact append_ne_empty_left _ _ (by decide)
  case some.h_2.h_1 ref content heq e heq2 =>
    rcases hw with hw | hw | hw <;> subst hw <;>
      simp [resultInv, hres, hcomp]
    exact henv _ e heq2
  case some.h_2.h_2 ref content heq res heq2 =>
    rcases hw with hw | hw | hw <;> subst hw <;>
      simp [resultInv, hres, hcomp]
    exact formatResult_ne_empty res

/-- Every write committed by a sequence of reanalyze requests satisfies
`resultInv`. -/
theorem lifecycleFrom_inv (events : List ReanalyzeEvent) :
    ∀ (prev : StepLabel × CodeReview),
      (∀ e ∈ events, Env.goodErrors e.env) →
      ∀ p ∈ lifecycleFrom prev events, resultInv p.2 := by
  induction events with
  | nil =>
      intro prev _ p hp
      simp [lifecycleFrom] at hp
  | cons e es ih =>
      intro prev hgood p hp
      simp only [lifecycleFrom, List.mem_append] at hp
      rcases hp with hp | hp
      · by_cases ho : prev.2.userID ≠ e.userID
        · simp [reanalyzeWrites, ReanalyzeReview, ho] at hp
        · push_neg at ho
          simp only [reanalyzeWrites, ReanalyzeReview, ho, ne_eq, not_true_eq_false,
            if_false, ite_false, List.mem_cons] at hp
          rcases hp with hp | hp
          · subst hp
            simp [resultInv]
          · rw [List.mem_map] at hp
            rcases hp with ⟨w, hw, hpw⟩
            subst hpw
            exact analyzeCode_writes_inv e.now _ none e.env
              (hgood e (by simp)) rfl rfl w hw
      · exact ih _ (fun ev hev => hgood ev (by simp [hev])) p hp

/-- C2 counterexample input: a repository-origin creation whose fetch fails. -/
def fetchFailInput : CreateReviewInput :=
  { title := "t", code := none, language := "",
    repoOwner := some "o", repoName := some "n", repoBranch := some "b",
    customPrompt := none }

/-- C2 counterexample environment: the repository fetch fails. -/
def fetchFailEnv : Env :=
  { fetch := fun _ => Except.error "boom",
    analyze := fun _ => Except.error "unreachable" }

/-- The concrete trace of `fetchFailInput` under `fetchFailEnv`. -/
def fetchFailTrace : List (StepLabel × CodeReview) :=
  (lifecycleTrace 1 0 7 fetchFailInput fetchFailEnv []).toOption.getD []

/-- C2, counterexample: after a failed repository fetch the persisted review
is `failed` yet `CompletedAt` is still null, so
`CompletedAt ≠ null ↔ Status ∈ {completed, failed}` does not hold on the
code. -/
theorem completedAt_unset_on_failed :
    (lifecycleTrace 1 0 7 fetchFailInput fetchFailEnv []).isOk = true ∧
    (lastD default fetchFailTrace).2.status = .failed ∧
    (lastD default fetchFailTrace).2.completedAt = none := by
  refine ⟨rfl, rfl, rfl⟩

/-- C2 (amended): on every write of every lifecycle trace, `CompletedAt` is
set iff the review is `completed` (the failure paths of `analyzeCode` never
stamp it), and `Result` is a non-empty string iff the review is `completed`
or `failed` — assuming the analyzer's error messages are non-empty, as the
concrete analyzer's are. -/
theorem lifecycle_result_invariant (newID now userID : Nat) (input : CreateReviewInput)
    (env : Env) (events : List ReanalyzeEvent) (tr : List (StepLabel × CodeReview))
    (henv : Env.goodErrors env) (hevs : ∀ e ∈ events, Env.goodErrors e.env)
    (h : lifecycleTrace newID now userID input env events = .ok tr) :
    ∀ p ∈ tr, (p.2.completedAt ≠ none ↔ p.2.status = .completed) ∧
      ((∃ s, p.2.result = some s ∧ s ≠ "") ↔
        (p.2.status = .completed ∨ p.2.status = .failed)) := by
  unfold lifecycleTrace at h
  rcases hc : Create newID now userID input with e | rp
  · rw [hc] at h
    cases h
  · rcases rp with ⟨r, repo⟩
    rw [hc] at h
    injection h with h
    subst h
    have hr := Create_ok_fields newID now userID input r repo hc
    intro p hp
    simp only [List.cons_append, List.mem_cons, List.mem_append] at hp
    rcases hp with hp | hp | hp
    · subst hp
      simp [hr.1, hr.2.1, hr.2.2]
    · rw [List.mem_map] at hp
      rcases hp with ⟨w, hw, hpw⟩
      subst hpw
      exact analyzeCode_writes_inv now r repo env henv hr.2.1 hr.2.2 w hw
    · exact lifecycleFrom_inv events _ hevs p hp

/-- The last write of a concrete successful trace, used by the C2 witness. -/
def okTraceLast : StepLabel × CodeReview :=
  lastD default ((lifecycleTrace 1 0 7 inlineInput okEnv []).toOption.getD [])

/-- C2 witness: the amended invariant evaluated at the last write of a
concrete trace. -/
theorem lifecycle_result_invariant_witness :
    (okTraceLast.2.completedAt ≠ none ↔ okTraceLast.2.status = .completed) ∧
    ((∃ s, okTraceLast.2.result = some s ∧ s ≠ "") ↔
      (okTraceLast.2.status = .completed ∨ okTraceLast.2.status = .failed)) :=
  lifecycle_result_invariant 1 0 7 inlineInput okEnv [] _
    (fun req e he => by simp [okEnv] at he) (fun e he => by simp at he) rfl
    okTraceLast (by decide)

/-- C3: for a review created with a repository origin, when the repository
fetch fails the background run persists exactly a `processing` write followed
by a `failed` write whose `Result` embeds the fetch failure's text, and the
analyzer is never invoked. -/
theorem fetch_failure_no_analysis (newID now userID : Nat) (input : CreateReviewInput)
    (env : Env) (r : CodeReview) (ref : RepoRef) (e : String)
    (hc : Create newID now userID input = .ok (r, some ref))
    (hf : env.fetch ref = .error e) :
    (analyzeCode now r (some ref) env).writes.map (fun w => w.status) =
      [.processing, .failed] ∧
    (lastD r (analyzeCode now r (some ref) env).writes).result =
      some ("Failed to fetch repository: " ++ e) ∧
    (analyzeCode now r (some ref) env).requests = [] := by
  simp [analyzeCode, hf, lastD]

/-- C3 witness: instantiation at the concrete fetch-failure trace. -/
theorem fetch_failure_no_analysis_witness :
    (analyzeCode 0 ((Create 1 0 7 fetchFailInput).toOption.getD
        (default, none)).1 (some ⟨"o", "n", "b"⟩) fetchFailEnv).requests = [] :=
  (fetch_failure_no_analysis 1 0 7 fetchFailInput fetchFailEnv _ ⟨"o", "n", "b"⟩ "boom"
    rfl rfl).2.2

/-- C5: an owner's `ReanalyzeReview` resets the review to `pending` with
`Result` and `CompletedAt` cleared and zero attached issues, preserves the
stored `Code` unchanged, and the re-scheduled background run performs no
repository fetch and hands exactly that stored code to the analyzer. -/
theorem reanalyze_reset (now now2 userID : Nat) (review : CodeReview)
    (issues : List SecurityIssue) (env : Env) (h : review.userID = userID) :
    ∃ reset, ReanalyzeReview now userID review issues = .ok (reset, [], none) ∧
      reset.status = .pending ∧ reset.result = none ∧ reset.completedAt = none ∧
      reset.code = review.code ∧
      (analyzeCode now2 reset none env).fetchCalls = 0 ∧
      (analyzeCode now2 reset none env).requests.map (fun q => q.code) =
        [review.code] := by
  refine ⟨{ review with
            status := .pending, result := none, completedAt := none,
            updatedAt := now }, ?_, rfl, rfl, rfl, rfl, rfl, ?_⟩
  · simp [ReanalyzeReview, h]
  · simp only [analyzeCode, analyzeTail]
    split <;> simp

/-- A concrete completed review owned by user 7, used by the C5 witness. -/
def ownedReview : CodeReview :=
  { id := 1, userID := 7, title := "t", code := "a=1",
    language := "python", status := .completed, result := some "r",
    customPrompt := none, createdAt := 0, updatedAt := 3,
    completedAt := some 3 }

/-- "Newest first": the `created_at DESC` ordering used by `FindByUserID`. -/
def newestFirst (a b : CodeReview) : Prop := b.createdAt ≤ a.createdAt

instance : DecidableRel newestFirst := fun a b => Nat.decLe _ _

instance : IsTotal CodeReview newestFirst :=
  ⟨fun a b => Nat.le_total b.createdAt a.createdAt⟩

instance : IsTrans CodeReview newestFirst :=
  ⟨fun _ _ _ hab hbc => le_trans hbc hab⟩

/-- `ReviewRepository.FindByUserID` (src/unnamed/part_004 lines 66-90): total
count of the user's reviews and one page ordered `created_at DESC` with
`OFFSET (page-1)*pageSize LIMIT pageSize`.  The SQL sort is modelled by a
stable sort with respect to `newestFirst`. -/
def FindByUserID (store : List CodeReview) (userID : Nat) (page pageSize : Int) :
    List CodeReview × Int :=
  let filtered := store.filter (fun r => r.userID = userID)
  let total : Int := filtered.length
  let sorted := List.insertionSort newestFirst filtered
  let offset := (page - 1) * pageSize
  ((sorted.drop offset.toNat).take pageSize.toNat, total)

/-- `domain.ReviewListResponse` (pagination envelope). -/
structure ReviewListResponse where
  reviews : List CodeReview
  total : Int
  page : Int
  pageSize : Int
  totalPages : Int

/-- The `page` coercion of `GetUserReviews` (review_service.go lines
111-113). -/
def coercePage (page : Int) : Int := if page < 1 then 1 else page

/-- The `pageSize` coercion of `GetUserReviews` (review_service.go lines
114-116). -/
def coercePageSize (pageSize : Int) : Int :=
  if pageSize < 1 ∨ pageSize > 100 then 20 else pageSize

/-- `ReviewServiceImpl.GetUserReviews` (review_service.go lines 110-138). -/
def GetUserReviews (store : List CodeReview) (userID : Nat) (page pageSize : Int) :
    ReviewListResponse :=
  let p := coercePage page
  let ps := coercePageSize pageSize
  let res := FindByUserID store userID p ps
  { reviews := res.1, total := res.2, page := p, pageSize := ps,
    totalPages := (res.2 + ps - 1) / ps }

/-- The coerced page size is always positive. -/
theorem coercePageSize_pos (pageSize : Int) : 0 < coercePageSize pageSize := by
  unfold coercePageSize
  split <;> omega

/-- Go's `(total + pageSize - 1) / pageSize` computes the rational ceiling of
`total / pageSize` for non-negative totals and positive page sizes. -/
theorem ediv_eq_ceil (t p : Int) (ht : 0 ≤ t) (hp : 0 < p) :
    (t + p - 1) / p = ⌈(t : ℚ) / (p : ℚ)⌉ := by
  have hpQ : (0 : ℚ) < (p : ℚ) := by exact_mod_cast hp
  have hdm := Int.ediv_add_emod (t + p - 1) p
  set q := (t + p - 1) / p with hq
  set r := (t + p - 1) % p with hr
  have hr0 : 0 ≤ r := Int.emod_nonneg _ (ne_of_gt hp)
  have hrp : r < p := Int.emod_lt_of_pos _ hp
  have hqp : p * q = t + p - 1 - r := by omega
  symm
  rw [Int.ceil_eq_iff]
  constructor
  · have h1 : (q - 1) * p < t := by nlinarith [hr0, hqp]
    rw [show ((q : ℚ) - 1) = ((q - 1 : Int) : ℚ) by push_cast; ring]
    rw [lt_div_iff₀ hpQ]
    exact_mod_cast h1
  · have h2 : t ≤ q * p := by nlinarith [hrp, hqp]
    rw [div_le_iff₀ hpQ]
    exact_mod_cast h2

/-- C7: `GetUserReviews` coerces `page < 1` to 1 and any `pageSize` outside
`[1,100]` to 20 (leaving in-range values unchanged), returns the page ordered
newest-first by creation time, and reports
`TotalPages = ⌈total / effective pageSize⌉`. -/
theorem GetUserReviews_spec (store : List CodeReview) (userID : Nat)
    (page pageSize : Int) :
    ((page < 1 → (GetUserReviews store userID page pageSize).page = 1) ∧
     (1 ≤ page → (GetUserReviews store userID page pageSize).page = page)) ∧
    ((pageSize < 1 ∨ 100 < pageSize →
        (GetUserReviews store userID page pageSize).pageSize = 20) ∧
     (1 ≤ pageSize → pageSize ≤ 100 →
        (GetUserReviews store userID page pageSize).pageSize = pageSize)) ∧
    List.Pairwise (fun a b => b.createdAt ≤ a.createdAt)
      (GetUserReviews store userID page pageSize).reviews ∧
    (GetUserReviews store userID page pageSize).totalPages =
      ⌈((GetUserReviews store userID page pageSize).total : ℚ) /
        ((GetUserReviews store userID page pageSize).pageSize : ℚ)⌉ := by
  refine ⟨⟨?_, ?_⟩, ⟨?_, ?_⟩, ?_, ?_⟩
  · intro h
    simp [GetUserReviews, coercePage, h]
  · intro h
    have : ¬ page < 1 := by omega
    simp [GetUserReviews, coercePage, this]
  · intro h
    have : pageSize < 1 ∨ pageSize > 100 := by omega
    simp [GetUserReviews, coercePageSize, this]
  · intro h1 h2
    have : ¬ (pageSize < 1 ∨ pageSize > 100) := by omega
    simp [GetUserReviews, coercePageSize, this]
  · show List.Pairwise newestFirst _
    exact (List.sorted_insertionSort newestFirst _).sublist
      ((List.take_sublist _ _).trans (List.drop_sublist _ _))
  · show ((FindByUserID store userID _ _).2 + coercePageSize pageSize - 1) /
        coercePageSize pageSize = _
    exact ediv_eq_ceil _ _ (by simp [FindByUserID]) (coercePageSize_pos pageSize)

/-- C7 witness: a concrete call with `page = 0`, `pageSize = 0` coerces to
page 1 and page size 20. -/
theorem GetUserReviews_spec_witness :
    (GetUserReviews [] 7 0 0).page = 1 ∧ (GetUserReviews [] 7 0 0).pageSize = 20 ∧
    (GetUserReviews [] 7 0 500).pageSize = 20 :=
  ⟨(GetUserReviews_spec [] 7 0 0).1.1 (by decide),
   (GetUserReviews_spec [] 7 0 0).2.1.1 (Or.inl (by decide)),
   (GetUserReviews_spec [] 7 0 500).2.1.1 (Or.inr (by decide))⟩

/-- Byte-wise lexicographic strict order on character lists, the collation
of the VARCHAR `severity` column. -/
def ltChars : List Char → List Char → Bool
  | [], [] => false
  | [], _ :: _ => true
  | _ :: _, [] => false
  | a :: as, b :: bs =>
      if a.toNat < b.toNat then true
      else if b.toNat < a.toNat then false
      else ltChars as bs

/-- The lexicographic `severity ASC, created_at ASC` row order produced by
the GORM query: the VARCHAR `severity` column compares as a plain string. -/
def severityCreatedAsc (a b : SecurityIssue) : Prop :=
  ltChars (severityString a.severity).toList (severityString b.severity).toList = true ∨
    (severityString a.severity = severityString b.severity ∧ a.createdAt ≤ b.createdAt)

instance : DecidableRel severityCreatedAsc := fun a b => by
  unfold severityCreatedAsc
  infer_instance

/-- `ReviewRepository.FindSecurityIssuesByReviewID` (src/unnamed/part_004
lines 158-167), the GORM query behind the wired
`ReviewRepositoryAdapter.GetSecurityIssuesByReviewID`
(review_adapter.go lines 86-99): filter by review and
`ORDER BY severity ASC, created_at ASC`. -/
def FindSecurityIssuesByReviewID (store : List SecurityIssue) (reviewID : Nat) :
    List SecurityIssue :=
  List.insertionSort severityCreatedAsc (store.filter (fun i => i.reviewID = reviewID))

/-- The severity rank of the raw-SQL
`PostgresReviewRepository.GetSecurityIssuesByReviewID` CASE expression
(src/unnamed/part_004 lines 433-446): critical, high, medium, low, info. -/
def severityRank : SecuritySeverity → Nat
  | .critical => 1
  | .high => 2
  | .medium => 3
  | .low => 4
  | .info => 5

/-- A minimal stored security issue. -/
def baseIssue : SecurityIssue :=
  { id := 0, reviewID := 1, severity := .info, title := "", description := "",
    lineStart := none, lineEnd := none, suggestion := "", cwe := none, createdAt := 0 }

/-- A `medium` issue inserted first. -/
def issueMedium : SecurityIssue := { baseIssue with id := 1, severity := .medium }

/-- An `info` issue inserted second. -/
def issueInfo : SecurityIssue := { baseIssue with id := 2, severity := .info, createdAt := 1 }

/-- C6: the wired GORM retrieval sorts the VARCHAR severity alphabetically,
so `info` is returned before `medium`, although the documented rank order
(and the raw-SQL twin's CASE expression) puts `medium` (rank 3) strictly
before `info` (rank 5). -/
theorem severity_sort_not_rank_ordered :
    (FindSecurityIssuesByReviewID [issueMedium, issueInfo] 1).map (fun i => i.severity) =
      [.info, .medium] ∧
    severityRank .medium < severityRank .info := by
  decide

/-- C5 witness: instantiation at a concrete owned review. -/
theorem reanalyze_reset_witness :
    ∃ reset, ReanalyzeReview 5 7 ownedReview [] = .ok (reset, [], none) ∧
      reset.status = .pending ∧ reset.result = none ∧ reset.completedAt = none ∧
      reset.code = ownedReview.code ∧
      (analyzeCode 6 reset none okEnv).fetchCalls = 0 ∧
      (analyzeCode 6 reset none okEnv).requests.map (fun q => q.code) =
        [ownedReview.code] :=
  reanalyze_reset 5 6 7 ownedReview [] okEnv rfl

namespace OpenAI

/-- The backtick character (byte 96). -/
def btick : Char := Char.ofNat 96

/-- The opening fence "```json\n" compared byte-wise at line 83 of
openai_analyzer.go. -/
def jsonFence : List Char := [btick, btick, btick, 'j', 's', 'o', 'n', '\n']

/-- A bare fence "```". -/
def bareFence : List Char := [btick, btick, btick]

/-- A bare opening fence line terminated by a newline. -/
def bareFenceNl : List Char := [btick, btick, btick, '\n']

/-- Sanity: the modelled fences are exactly the Go string literals. -/
theorem fences_are_literals :
    jsonFence = "```json\n".toList ∧ bareFence = "```".toList ∧
    bareFenceNl = "```\n".toList := by
  decide

/-- The trailing-fence strip shared by both branches of the Go code
(openai_analyzer.go lines 85-87 and 99-101). -/
def stripTrailingFence (l : List Char) : List Char :=
  if l.length > 3 ∧ l.drop (l.length - 3) = bareFence then l.take (l.length - 3) else l

/-- End of the opening fence line (lines 90-97): the index after the first
newline at position ≥ 3; `start` stays 3 when no newline occurs. -/
def fenceBodyStart (l : List Char) : Nat :=
  match (l.drop 3).findIdx? (fun c => c = '\n') with
  | some i => 3 + i + 1
  | none => 3

/-- The markdown-fence stripping of `OpenAICodeAnalyzer.AnalyzeCode`
(openai_analyzer.go lines 82-102), at byte level over the reply content. -/
def stripFences (l : List Char) : List Char :=
  if l.length > 7 ∧ l.take 8 = jsonFence then
    stripTrailingFence (l.drop 8)
  else if l.length > 3 ∧ l.take 3 = bareFence then
    stripTrailingFence (l.drop (fenceBodyStart l))
  else l

/-- `OpenAICodeAnalyzer.AnalyzeCode` (openai_analyzer.go lines 28-111) after
the chat-completion call: given the reply's choices (message contents) and
the JSON decoding function (modelling `json.Unmarshal` into
`AnalysisResult`), produce the parsed result or a hard error — no repair and
no retry. -/
def AnalyzeCode (parse : List Char → Option AnalysisResult) :
    List (List Char) → Except String AnalysisResult
  | [] => .error "analysis failed"
  | content :: _ =>
      match parse (stripFences content) with
      | some result => .ok result
      | none => .error "failed to parse OpenAI response"

/-- Stripping the trailing fence from `j ++ "```"` recovers `j` when `j` is
non-empty. -/
theorem stripTrailingFence_append (j : List Char) (hne : j ≠ []) :
    stripTrailingFence (j ++ bareFence) = j := by
  have hlen : (j ++ bareFence).length = j.length + 3 := by simp [bareFence]
  have hpos : 0 < j.length := List.length_pos.mpr hne
  unfold stripTrailingFence
  rw [if_pos]
  · rw [hlen, Nat.add_sub_cancel]
    exact List.take_left j bareFence
  · refine ⟨by rw [hlen]; omega, ?_⟩
    rw [hlen, Nat.add_sub_cancel]
    exact List.drop_left j bareFence

/-- A reply that does not open with a fence is passed through unchanged. -/
theorem stripFences_id (j : List Char) (h3 : j.take 3 ≠ bareFence) :
    stripFences j = j := by
  unfold stripFences
  rw [if_neg, if_neg]
  · rintro ⟨-, h⟩
    exact h3 h
  · rintro ⟨-, h⟩
    apply h3
    have := congrArg (fun t => t.take 3) h
    simpa [List.take_take] using this

/-- Stripping a "```json\n" … "```" wrapped reply recovers the body. -/
theorem stripFences_jsonWrapped (j : List Char) (hne : j ≠ []) :
    stripFences (jsonFence ++ j ++ bareFence) = j := by
  have hassoc : jsonFence ++ j ++ bareFence = jsonFence ++ (j ++ bareFence) :=
    List.append_assoc _ _ _
  unfold stripFences
  rw [if_pos]
  · have hdrop : (jsonFence ++ j ++ bareFence).drop 8 = j ++ bareFence := by
      rw [hassoc]
      exact List.drop_left jsonFence (j ++ bareFence)
    rw [hdrop]
    exact stripTrailingFence_append j hne
  · constructor
    · simp [jsonFence, bareFence]
    · rw [hassoc]
      exact List.take_left jsonFence (j ++ bareFence)

/-- Stripping a bare-fence-with-newline … "```" wrapped reply recovers the
body. -/
theorem stripFences_bareWrapped (j : List Char) (hne : j ≠ []) :
    stripFences (bareFenceNl ++ j ++ bareFence) = j := by
  have hform : bareFenceNl ++ j ++ bareFence =
      btick :: btick :: btick :: '\n' :: (j ++ bareFence) := rfl
  unfold stripFences
  rw [if_neg, if_pos]
  · have hstart : fenceBodyStart (bareFenceNl ++ j ++ bareFence) = 4 := rfl
    rw [hstart]
    have hdrop : (bareFenceNl ++ j ++ bareFence).drop 4 = j ++ bareFence := rfl
    rw [hdrop]
    exact stripTrailingFence_append j hne
  · refine ⟨?_, rfl⟩
    rw [hform]
    simp
  · rintro ⟨-, h⟩
    rw [hform] at h
    have h8 : (btick :: btick :: btick :: '\n' :: (j ++ bareFence)).take 8 =
        btick :: btick :: btick :: '\n' :: ((j ++ bareFence).take 4) := rfl
    rw [h8] at h
    have h4 := congrArg (fun t => t.getD 3 'x') h
    simp [jsonFence, List.getD] at h4

/-- C8: for every body `j` ≠ "" that does not itself open with a fence (true
of any JSON text), `AnalyzeCode` parses the same `AnalysisResult` whether the
reply is `j` bare, `j` wrapped in "```json\n" … "```", or `j` wrapped in bare
fences with the opening fence line terminated by a newline; and every reply
with zero choices, or whose stripped content fails JSON parsing, yields an
error. -/
theorem AnalyzeCode_fence_insensitive (parse : List Char → Option AnalysisResult)
    (j : List Char) (hne : j ≠ []) (h3 : j.take 3 ≠ bareFence) :
    AnalyzeCode parse [jsonFence ++ j ++ bareFence] = AnalyzeCode parse [j] ∧
    AnalyzeCode parse [bareFenceNl ++ j ++ bareFence] = AnalyzeCode parse [j] ∧
    AnalyzeCode parse [] = .error "analysis failed" ∧
    (∀ content rest, parse (stripFences content) = none →
      AnalyzeCode parse (content :: rest) = .error "failed to parse OpenAI response") := by
  refine ⟨?_, ?_, rfl, ?_⟩
  · simp only [AnalyzeCode]
    rw [stripFences_jsonWrapped j hne, stripFences_id j h3]
  · simp only [AnalyzeCode]
    rw [stripFences_bareWrapped j hne, stripFences_id j h3]
  · intro content rest hp
    simp only [AnalyzeCode]
    rw [hp]

/-- A toy JSON decoder accepting only the body "j". -/
def toyParse (l : List Char) : Option AnalysisResult :=
  if l = ['j'] then
    some { summary := "s", securityIssues := [], suggestions := [], overallScore := 1 }
  else none

/-- C8 witness: instantiation of the fence-insensitivity theorem at the toy
decoder and body "j". -/
theorem AnalyzeCode_fence_insensitive_witness :
    AnalyzeCode toyParse [jsonFence ++ ['j'] ++ bareFence] = AnalyzeCode toyParse [['j']] ∧
    AnalyzeCode toyParse [] = .error "analysis failed" :=
  ⟨(AnalyzeCode_fence_insensitive toyParse ['j'] (by decide) (by decide)).1,
   (AnalyzeCode_fence_insensitive toyParse ['j'] (by decide) (by decide)).2.2.1⟩

end OpenAI

namespace Resolver

/-- One entry of the downloaded repository archive: its path, whether it is
a directory, the size reported by the zip header (`file.FileInfo().Size()`),
and its decompressed bytes. -/
structure ZipEntry where
  name : String
  isDir : Bool
  size : Nat
  content : List Nat
deriving DecidableEq, Repr, Inhabited

/-- Go `strings.Contains`. -/
def containsSub (s sub : String) : Bool :=
  s.toList.tails.any (fun t => sub.toList.isPrefixOf t)

/-- Go `strings.HasSuffix`. -/
def hasSuffixStr (s suf : String) : Bool :=
  suf.toList.isSuffixOf s.toList

/-- Go `strings.ToLower` (paths here are ASCII). -/
def lowerStr (s : String) : String := String.mk (s.toList.map Char.toLower)

/-- Go `filepath.Base`: strip trailing slashes, then take everything after
the last slash; "." for the empty path, "/" when the path is all slashes. -/
def pathBase (s : String) : String :=
  if s = "" then "." else
  let l := (s.toList.reverse.dropWhile (fun c => c = '/')).reverse
  if l = [] then "/" else String.mk ((l.reverse.takeWhile (fun c => c ≠ '/')).reverse)

/-- Scan a reversed path element for its extension: collect characters until
the first dot (returning the extension including the dot) or give up at a
slash or the beginning. -/
def extRevScan : List Char → List Char → Option (List Char)
  | _, [] => none
  | acc, c :: rest =>
      if c = '/' then none
      else if c = '.' then some (c :: acc)
      else extRevScan (c :: acc) rest

/-- Go `filepath.Ext`: the suffix starting at the final dot in the final
path element; empty when there is none. -/
def pathExt (s : String) : String :=
  match extRevScan [] s.toList.reverse with
  | some l => String.mk l
  | none => ""

/-- The dependency/build/VCS directory substrings skipped by
`shouldSkipFile` (github_auth_service.go lines 823-834). -/
def skipDirSubstrings : List String :=
  ["node_modules/", ".git/", "vendor/", ".idea/", ".vscode/", "dist/",
   "build/", "coverage/", "tmp/", "__pycache__/"]

/-- The lockfile / minified / map test on the lower-cased base name
(github_auth_service.go lines 836-847). -/
def isLockOrMinified (fileName : String) : Bool :=
  fileName = "package-lock.json" || fileName = "yarn.lock" ||
  fileName = "pnpm-lock.yaml" || fileName = "go.sum" || fileName = "cargo.lock" ||
  hasSuffixStr fileName ".map" || hasSuffixStr fileName ".min.js" ||
  hasSuffixStr fileName ".min.css"

/-- The extension allow-list (github_auth_service.go lines 849-857). -/
def allowedExts : List String :=
  [".go", ".js", ".ts", ".py", ".java", ".c", ".cpp", ".h", ".hpp", ".rb",
   ".php", ".cs", ".rs", ".swift", ".kt", ".html", ".css", ".json", ".yaml",
   ".yml", ".sql", ".md"]

/-- `shouldSkipFile` (github_auth_service.go lines 821-859). -/
def shouldSkipFile (path : String) : Bool :=
  if skipDirSubstrings.any (fun d => containsSub path d) then true
  else
    let fileName := lowerStr (pathBase path)
    if isLockOrMinified fileName then true
    else
      let ext := lowerStr (pathExt path)
      !(allowedExts.contains ext)

/-- `isText` (github_auth_service.go lines 861-871): no NUL byte among the
first 1024 bytes. -/
def isText (b : List Nat) : Bool := (b.take 1024).all (fun c => !(c = 0))

/-- The per-file block appended to the builder (lines 808-810): the
`--- File: <path> ---` marker line followed by the file's content. -/
def fileBlock (e : ZipEntry) : String :=
  "\n--- File: " ++ e.name ++ " ---\n" ++
    String.mk (e.content.map (fun c => Char.ofNat c)) ++ "\n"

/-- Whether the loop keeps a file, in the source's test order: directory,
`shouldSkipFile`, size ceiling, binary heuristic (lines 778-806).  Read
errors, which the loop also skips, are not modelled. -/
def keepEntry (e : ZipEntry) : Bool :=
  if e.isDir then false
  else if shouldSkipFile e.name then false
  else if e.size > 100 * 1024 then false
  else if !(isText e.content) then false
  else true

/-- The builder's accumulation over the kept entries. -/
def concatBlocks : List ZipEntry → String
  | [] => ""
  | e :: es => fileBlock e ++ concatBlocks es

/-- `GetRepositoryContent` (github_auth_service.go lines 771-819) from the
point where the archive is open: flatten the kept files into one document and
fail when nothing qualified (`sb.Len() == 0`). -/
def GetRepositoryContent (entries : List ZipEntry) : Except String String :=
  let body := concatBlocks (entries.filter keepEntry)
  if body = "" then .error "no suitable source files found in repository"
  else .ok body

/-- Every per-file block is non-empty (it starts with its marker line). -/
theorem fileBlock_ne_empty (e : ZipEntry) : fileBlock e ≠ "" := by
  unfold fileBlock
  repeat' apply append_ne_empty_left
  decide

/-- The flattened document is empty exactly for the empty entry list. -/
theorem concatBlocks_eq_empty (l : List ZipEntry) : concatBlocks l = "" ↔ l = [] := by
  cases l with
  | nil => simp [concatBlocks]
  | cons e es =>
      simp only [concatBlocks]
      refine ⟨fun h => absurd h (append_ne_empty_left _ _ (fileBlock_ne_empty e)),
        fun h => by cases h⟩

/-- C9: the resolver's output is exactly the concatenation of the
marker-prefixed blocks of the qualifying files, it fails with the
no-suitable-content error exactly when zero files qualify, and a file
qualifies exactly when it is not a directory, not under a skipped
dependency/build/VCS directory, not a known lockfile or minified/map name,
has an allow-listed extension, is at most 100 KiB, and has no NUL byte in its
first 1 KiB. -/
theorem GetRepositoryContent_spec (entries : List ZipEntry) :
    (GetRepositoryContent entries =
      if entries.any keepEntry = true then
        .ok (concatBlocks (entries.filter keepEntry))
      else .error "no suitable source files found in repository") ∧
    (∀ e : ZipEntry, keepEntry e =
      (!e.isDir &&
       !(skipDirSubstrings.any (fun d => containsSub e.name d)) &&
       !(isLockOrMinified (lowerStr (pathBase e.name))) &&
       allowedExts.contains (lowerStr (pathExt e.name)) &&
       decide (e.size ≤ 100 * 1024) &&
       decide (∀ b ∈ e.content.take 1024, b ≠ 0))) := by
  constructor
  · by_cases h : entries.filter keepEntry = []
    · have hany : entries.any keepEntry = false := by
        rw [List.any_eq_false]
        intro x hx
        rw [List.filter_eq_nil_iff] at h
        simpa using h x hx
      simp [GetRepositoryContent, h, hany, concatBlocks]
    · have hany : entries.any keepEntry = true := by
        rw [List.any_eq_true]
        rcases List.exists_mem_of_ne_nil _ h with ⟨x, hx⟩
        rcases List.mem_filter.mp hx with ⟨hx1, hx2⟩
        exact ⟨x, hx1, hx2⟩
      have hbody : concatBlocks (entries.filter keepEntry) ≠ "" :=
        fun hb => h ((concatBlocks_eq_empty _).mp hb)
      simp [GetRepositoryContent, hany, hbody]
  · intro e
    have hsize : decide (e.size ≤ 100 * 1024) = !(decide (e.size > 100 * 1024)) := by
      rw [Bool.eq_iff_iff]
      simp
      try omega
    have htext : decide (∀ b ∈ e.content.take 1024, b ≠ 0) = isText e.content := by
      rw [Bool.eq_iff_iff]
      simp [isText, List.all_eq_true]
    rw [hsize, htext]
    unfold keepEntry shouldSkipFile
    cases hd : e.isDir <;>
      cases h1 : skipDirSubstrings.any (fun d => containsSub e.name d) <;>
      cases h2 : isLockOrMinified (lowerStr (pathBase e.name)) <;>
      cases h3 : allowedExts.contains (lowerStr (pathExt e.name)) <;>
      by_cases h4 : e.size > 100 * 1024 <;>
      cases h5 : isText e.content <;>
      simp_all

end Resolver

end SecureReview
